import Mathlib

/-
Shallow embedding of the sphinx replay cache (src/lib.rs, src/errors.rs,
src/constants.rs).

Modeling conventions:
* Machine integers (u64 epochs) are Nat; the two places where u64
  wraparound can matter (`time.epoch - 1` in MixKeys::prune and
  `base_epoch + num_mix_keys as u64` in MixKeys::generate) are modeled
  with an explicit `% 2 ^ 64`.
* The sled `Tree` collaborator is a list of key/value byte strings
  together with a schedule of transient I/O faults: each get/set
  consumes the head of the schedule and fails when that head is `true`.
  An empty schedule is a fault-free store.
* The `bloom` collaborator is modeled by the exact list of inserted
  tags plus an over-approximation (`extra`, a function of the inserted
  tags) standing for hash-collision false positives; an element that
  has been inserted is always reported as contained, because real bloom
  filters have no false negatives, and a freshly constructed filter has
  all bits clear, so `extra []` of a real filter is everywhere false.
* The ECDH collaborator: a private key is its byte serialization;
  `load_bytes` of the stored serialization round-trips; public-key
  derivation is an abstract deterministic function of those bytes
  (only its definedness is used by the claims).
* OS randomness is a parameter: the bytes the RNG would produce are
  passed to `MixKey.new`.
* Arc<Mutex<MixKey>> handles held by the ring and by `shadow`
  destinations are an abstract handle type; handle identity is handle
  equality.  All calls are modeled as serialized (the code locks the
  per-key mutex around every operation).
-/

namespace Sphinx

abbrev Bytes := List Nat

/-- lib.rs: `Tag` is a fixed-width byte array; byte-wise equality. -/
abbrev Tag := Bytes

/-- Replay-tag size supplied by the sphinxcrypto collaborator. -/
def SPHINX_REPLAY_TAG_SIZE : Nat := 32

def U64_LIMIT : Nat := 2 ^ 64

/-- errors.rs: `MixKeyError` (payloads of KeyError/IoError dropped). -/
inductive MixKeyError where
  | CreateCacheFailed
  | LoadCacheFailed
  | KeyError
  | IoError
  | SledError
deriving DecidableEq

instance exceptDecEq {ε α : Type} [DecidableEq ε] [DecidableEq α] :
    DecidableEq (Except ε α) := fun a b =>
  match a, b with
  | Except.ok x, Except.ok y =>
    if h : x = y then isTrue (by rw [h]) else isFalse (by intro hc; cases hc; exact h rfl)
  | Except.ok _, Except.error _ => isFalse (by intro hc; cases hc)
  | Except.error _, Except.ok _ => isFalse (by intro hc; cases hc)
  | Except.error x, Except.error y =>
    if h : x = y then isTrue (by rw [h]) else isFalse (by intro hc; cases hc; exact h rfl)

/-- Association-list lookup, modeling HashMap::get and the keyed reads of sled. -/
def alookup {κ α : Type} [DecidableEq κ] : List (κ × α) → κ → Option α
  | [], _ => none
  | p :: r, k => if p.1 = k then some p.2 else alookup r k

/-- sled::Tree modeled as a durable map plus a transient fault schedule. -/
structure SledTree where
  map : List (Bytes × Bytes)
  faults : List Bool

/-- Consume the next entry of the fault schedule. -/
def SledTree.step (s : SledTree) : Bool × SledTree :=
  match s.faults with
  | [] => (false, s)
  | b :: rest => (b, { s with faults := rest })

/-- Tree::get: `Err` on a scheduled fault, otherwise `Ok(lookup)`. -/
def SledTree.get (s : SledTree) (k : Bytes) : Except Unit (Option Bytes) × SledTree :=
  let r := s.step
  if r.1 then (Except.error (), r.2) else (Except.ok (alookup r.2.map k), r.2)

/-- Tree::set: `Err` on a scheduled fault, otherwise bind `k` to `v`. -/
def SledTree.set (s : SledTree) (k v : Bytes) : Except Unit Unit × SledTree :=
  let r := s.step
  if r.1 then (Except.error (), r.2)
  else (Except.ok (), { r.2 with map := (k, v) :: r.2.map })

/-- A fresh, fault-free, empty store (a fresh per-epoch directory). -/
def emptySledTree : SledTree := { map := [], faults := [] }

/-- bloom::BloomFilter: exact insertion record plus false-positive structure. -/
structure BloomFilter where
  inserted : List Tag
  extra : List Tag → Tag → Bool

/-- BloomFilter::contains: true on every inserted tag, plus false positives. -/
def BloomFilter.contains (f : BloomFilter) (t : Tag) : Bool :=
  f.inserted.contains t || f.extra f.inserted t

/-- BloomFilter::insert. -/
def BloomFilter.insert (f : BloomFilter) (t : Tag) : BloomFilter :=
  { f with inserted := t :: f.inserted }

/-- lib.rs: `MIX_CACHE_KEY = "private_key"` as bytes. -/
def MIX_CACHE_KEY : Bytes := [112, 114, 105, 118, 97, 116, 101, 95, 107, 101, 121]

/-- lib.rs: `EPOCH_KEY = "epoch"` as bytes. -/
def EPOCH_KEY : Bytes := [101, 112, 111, 99, 104]

/-- byteorder LittleEndian::write_u64. -/
def leU64 (n : Nat) : Bytes := (List.range 8).map (fun i => n / 256 ^ i % 256)

/-- byteorder LittleEndian::read_u64. -/
def readU64LE (b : Bytes) : Nat := (b.take 8).reverse.foldl (fun acc x => acc * 256 + x) 0

/-- lib.rs: `MixKey` (the bloom sizing and cache-capacity floats are
collaborator configuration and are not modeled; no claim concerns them). -/
structure MixKey where
  filter : BloomFilter
  cache : SledTree
  private_key : Bytes
  epoch : Nat

/-- MixKey::new.  `cache0` is the store found under
`base_dir/mix_key.<epoch>`; `rngKey` is what the OS RNG would generate;
`bloomExtra` is the false-positive structure of the freshly built filter
(the bloom hashers are seeded randomly at construction). -/
def MixKey.new (epoch : Nat) (cache0 : SledTree) (rngKey : Bytes)
    (bloomExtra : List Tag → Tag → Bool) : Except MixKeyError MixKey :=
  let rE := cache0.get EPOCH_KEY
  let next : Except MixKeyError SledTree :=
    match rE.1 with
    | Except.ok (some raw_epoch) =>
      if epoch ≠ readU64LE raw_epoch then Except.error MixKeyError.LoadCacheFailed
      else Except.ok rE.2
    | _ =>
      let rS := rE.2.set (leU64 epoch) []
      match rS.1 with
      | Except.ok _ => Except.ok rS.2
      | Except.error _ => Except.error MixKeyError.SledError
  match next with
  | Except.error e => Except.error e
  | Except.ok s2 =>
    let rK := s2.get MIX_CACHE_KEY
    match rK.1 with
    | Except.ok (some key_blob) =>
      Except.ok { filter := { inserted := [], extra := bloomExtra },
                  cache := rK.2, private_key := key_blob, epoch := epoch }
    | _ =>
      let rS := rK.2.set MIX_CACHE_KEY rngKey
      match rS.1 with
      | Except.ok _ =>
        Except.ok { filter := { inserted := [], extra := bloomExtra },
                    cache := rS.2, private_key := rngKey, epoch := epoch }
      | Except.error _ => Except.error MixKeyError.CreateCacheFailed

/-- ECDH public-key derivation, modeled abstractly as a deterministic
function of the private-key bytes. -/
def MixKey.public_key (m : MixKey) : Bytes := m.private_key

/-- MixKey::is_replay, line for line.  Note the slow path matches the
store-read result with the catch-all `Ok(_)` of the source, and runs its
else branch (insert + write + fresh verdict) on `Err` only. -/
def MixKey.is_replay (m : MixKey) (tag : Tag) : Except MixKeyError Bool × MixKey :=
  let maybe_replay := m.filter.contains tag
  if !maybe_replay then
    let f1 := m.filter.insert tag
    let r := m.cache.set tag []
    match r.1 with
    | Except.ok _ => (Except.ok false, { m with filter := f1, cache := r.2 })
    | Except.error _ => (Except.error MixKeyError.SledError, { m with filter := f1, cache := r.2 })
  else
    let r := m.cache.get tag
    match r.1 with
    | Except.ok _ => (Except.ok true, { m with cache := r.2 })
    | Except.error _ =>
      let f1 := m.filter.insert tag
      let r2 := r.2.set tag []
      match r2.1 with
      | Except.ok _ => (Except.ok false, { m with filter := f1, cache := r2.2 })
      | Except.error _ => (Except.error MixKeyError.SledError, { m with filter := f1, cache := r2.2 })

/-- MixKey::flush: durability is implicit in the store map, so flushing
does not change the modeled state. -/
def MixKey.flush (m : MixKey) : MixKey := m

/-- Fold a sequence of is_replay calls over one MixKey (verdicts dropped). -/
def replayAll (m : MixKey) (tags : List Tag) : MixKey :=
  tags.foldl (fun acc u => (MixKey.is_replay acc u).2) m

/-- The u64 value of `clock.now().epoch - 1` (wrapping at 0, as release
builds do; debug builds panic there). -/
def pruneThreshold (clockEpoch : Nat) : Nat := (clockEpoch + (U64_LIMIT - 1)) % U64_LIMIT

/-- MixKeys::prune.  The retain closure of the source returns `true`
(keep) exactly on `key < time.epoch - 1`, and the flag it mutates
records whether some entry satisfied that comparison.  `α` is the
Arc<Mutex<MixKey>> handle type. -/
def MixKeys.prune {α : Type} (keys : List (Nat × α)) (clockEpoch : Nat) :
    List (Nat × α) × Bool :=
  (keys.filter (fun p => decide (p.1 < pruneThreshold clockEpoch)),
   keys.any (fun p => decide (p.1 < pruneThreshold clockEpoch)))

/-- MixKeys::shadow: drop dst entries whose key left the ring, then add
ring entries (by shared handle) whose key dst does not yet hold. -/
def MixKeys.shadow {α : Type} (keys dst : List (Nat × α)) : List (Nat × α) :=
  let dst1 := dst.filter (fun p => (alookup keys p.1).isSome)
  dst1 ++ keys.filter (fun p => (alookup dst1 p.1).isNone)

/-- The epochs visited by `for epoch in base..base + num as u64`, with
the end of the range computed in wrapping u64 arithmetic. -/
def epochRange (base num : Nat) : List Nat :=
  (List.range ((base + num) % U64_LIMIT - base)).map (fun i => base + i)

/-- The loop body of MixKeys::generate: skip epochs already present,
construct and insert the rest, tracking whether anything was generated.
Construction failures propagate.  `env` gives the store found under
each epoch's directory, `rng` and `ex` the per-construction randomness
and bloom false-positive structure. -/
def genGo (env : Nat → SledTree) (rng : Nat → Bytes)
    (ex : Nat → List Tag → Tag → Bool) :
    List Nat → List (Nat × MixKey) → Bool →
    Except MixKeyError (List (Nat × MixKey) × Bool)
  | [], ks, dg => Except.ok (ks, dg)
  | e :: rest, ks, dg =>
    if (alookup ks e).isSome then genGo env rng ex rest ks dg
    else
      match MixKey.new e (env e) (rng e) (ex e) with
      | Except.error err => Except.error err
      | Except.ok k => genGo env rng ex rest ((e, k) :: ks) true

/-- MixKeys::generate. -/
def MixKeys.generate (env : Nat → SledTree) (rng : Nat → Bytes)
    (ex : Nat → List Tag → Tag → Bool) (keys : List (Nat × MixKey))
    (base num : Nat) : Except MixKeyError (List (Nat × MixKey) × Bool) :=
  genGo env rng ex (epochRange base num) keys false

/-- MixKeys::new: start from an empty ring and run init, which calls
generate(clock.now().epoch); errors propagate. -/
def MixKeys.new (clockEpoch num : Nat) (env : Nat → SledTree) (rng : Nat → Bytes)
    (ex : Nat → List Tag → Tag → Bool) : Except MixKeyError (List (Nat × MixKey)) :=
  match MixKeys.generate env rng ex [] clockEpoch num with
  | Except.error e => Except.error e
  | Except.ok r => Except.ok r.1

/-- MixKeys::public_key: Some(entry's public key) when the epoch is in
the ring, None otherwise. -/
def MixKeys.public_key (keys : List (Nat × MixKey)) (epoch : Nat) : Option Bytes :=
  (alookup keys epoch).map MixKey.public_key

/-- A bloom false-positive structure that never fires. -/
def exF : List Tag → Tag → Bool := fun _ _ => false

/-- A bloom false-positive structure that always fires. -/
def exT : List Tag → Tag → Bool := fun _ _ => true

/-- A concrete 32-byte tag. -/
def t0 : Tag := List.replicate 32 0

/-- Another concrete 32-byte tag. -/
def u0 : Tag := List.replicate 32 1

/-- The MixKey produced by MixKey::new on a fresh directory. -/
def mkFresh (e : Nat) (rng : Bytes) (ex : List Tag → Tag → Bool) : MixKey :=
  { filter := { inserted := [], extra := ex },
    cache := { map := [(MIX_CACHE_KEY, rng), (leU64 e, [])], faults := [] },
    private_key := rng, epoch := e }

/-- A MixKey state whose filter reports t0 as a false positive (u0 was
inserted and recorded; the hash structure also covers t0) over a
fault-free store that does not hold t0. -/
def mC1 : MixKey :=
  { filter := { inserted := [u0], extra := exT },
    cache := { map := [(u0, [])], faults := [] },
    private_key := [1], epoch := 1 }

/-- Like mC1, but the next store operation (the slow-path read) fails
and the one after it (the recovery write) succeeds. -/
def mC4 : MixKey :=
  { filter := { inserted := [u0], extra := exT },
    cache := { map := [(u0, [])], faults := [true, false] },
    private_key := [1], epoch := 1 }

/-- A fresh MixKey over a store whose operations go ok, fail, ok. -/
def mC5 : MixKey :=
  { filter := { inserted := [], extra := exF },
    cache := { map := [], faults := [false, true, false] },
    private_key := [1], epoch := 1 }

/-- The MixKey constructed at (base_dir, epoch 1) over a fresh directory. -/
def c3m1 : MixKey := (MixKey.new 1 emptySledTree [7] exF).toOption.getD (mkFresh 0 [] exF)

/-- First-lifetime MixKey of the restart scenario: epoch 1, fresh
directory, generated key bytes [1]. -/
def c6m1 : MixKey := mkFresh 1 [1] exF

/-- Second-lifetime MixKey of the restart scenario: reconstructed at the
same (base_dir, epoch) after c6m1 observed t0, flushed and was dropped. -/
def c6m2 : MixKey :=
  (MixKey.new 1 (MixKey.flush (replayAll c6m1 [t0])).cache [2] exF).toOption.getD c6m1

/-- Per-epoch environment of fresh directories. -/
def envEmpty : Nat → SledTree := fun _ => emptySledTree

/-- Per-epoch RNG output used for ring construction. -/
def rng0 : Nat → Bytes := fun _ => []

/-- Per-epoch bloom false-positive structure used for ring construction. -/
def ex0 : Nat → List Tag → Tag → Bool := fun _ => exF

theorem length_ne_imp_ne {a b : Bytes} (h : a.length ≠ b.length) : a ≠ b :=
  fun hc => h (congrArg List.length hc)

theorem leU64_length (n : Nat) : (leU64 n).length = 8 := by simp [leU64]

theorem leU64_ne_mix (n : Nat) : leU64 n ≠ MIX_CACHE_KEY := by
  apply length_ne_imp_ne; rw [leU64_length]; decide

theorem leU64_ne_epoch (n : Nat) : leU64 n ≠ EPOCH_KEY := by
  apply length_ne_imp_ne; rw [leU64_length]; decide

theorem tag_ne_mix {u : Tag} (hu : u.length = SPHINX_REPLAY_TAG_SIZE) :
    u ≠ MIX_CACHE_KEY := by
  apply length_ne_imp_ne; rw [hu]; decide

theorem tag_ne_epoch {u : Tag} (hu : u.length = SPHINX_REPLAY_TAG_SIZE) :
    u ≠ EPOCH_KEY := by
  apply length_ne_imp_ne; rw [hu]; decide

/-- MixKey::new on a fresh directory: write the epoch record (as a key),
generate and persist the private key, start with an empty filter. -/
theorem new_empty (e : Nat) (rng : Bytes) (ex : List Tag → Tag → Bool) :
    MixKey.new e emptySledTree rng ex = Except.ok (mkFresh e rng ex) := by
  unfold MixKey.new emptySledTree SledTree.get SledTree.set SledTree.step
  simp [alookup, leU64_ne_mix e, mkFresh]

/-- Over a fault-free store, is_replay keeps the schedule empty and either
leaves the map alone or records exactly the queried tag. -/
theorem is_replay_nofault (m : MixKey) (u : Tag) (hf : m.cache.faults = []) :
    ((MixKey.is_replay m u).2).cache.faults = [] ∧
    (((MixKey.is_replay m u).2).cache.map = m.cache.map ∨
     ((MixKey.is_replay m u).2).cache.map = (u, []) :: m.cache.map) := by
  cases hc : BloomFilter.contains m.filter u <;>
    simp [MixKey.is_replay, SledTree.get, SledTree.set, SledTree.step, hc, hf]

/-- Any fault-free sequence of is_replay calls with proper-length tags
preserves the reserved store entries. -/
theorem replayAll_inv (rngk : Bytes) (tags : List Tag) (m : MixKey)
    (htags : ∀ u ∈ tags, u.length = SPHINX_REPLAY_TAG_SIZE)
    (hf : m.cache.faults = [])
    (hmix : alookup m.cache.map MIX_CACHE_KEY = some rngk)
    (hep : alookup m.cache.map EPOCH_KEY = none) :
    (replayAll m tags).cache.faults = [] ∧
    alookup (replayAll m tags).cache.map MIX_CACHE_KEY = some rngk ∧
    alookup (replayAll m tags).cache.map EPOCH_KEY = none := by
  induction tags generalizing m with
  | nil => exact ⟨hf, hmix, hep⟩
  | cons u rest ih =>
    have hu := htags u (List.mem_cons_self u rest)
    have hrest : ∀ v ∈ rest, v.length = SPHINX_REPLAY_TAG_SIZE :=
      fun v hv => htags v (List.mem_cons_of_mem u hv)
    have h1 := is_replay_nofault m u hf
    have hstep : replayAll m (u :: rest) = replayAll ((MixKey.is_replay m u).2) rest := rfl
    rw [hstep]
    refine ih _ hrest h1.1 ?_ ?_
    · rcases h1.2 with hmap | hmap
      · rw [hmap]; exact hmix
      · rw [hmap]; simp [alookup, tag_ne_mix hu, hmix]
    · rcases h1.2 with hmap | hmap
      · rw [hmap]; exact hep
      · rw [hmap]; simp [alookup, tag_ne_epoch hu, hep]

/-- MixKey::new over a fault-free store holding a private key but no
EPOCH_KEY entry: loads the stored key and writes a fresh epoch record. -/
theorem new_on_store (e : Nat) (s : SledTree) (rng2 blob : Bytes)
    (ex2 : List Tag → Tag → Bool) (hf : s.faults = [])
    (hep : alookup s.map EPOCH_KEY = none)
    (hmix : alookup s.map MIX_CACHE_KEY = some blob) :
    MixKey.new e s rng2 ex2 =
      Except.ok { filter := { inserted := [], extra := ex2 },
                  cache := { map := (leU64 e, []) :: s.map, faults := [] },
                  private_key := blob, epoch := e } := by
  unfold MixKey.new SledTree.get SledTree.set SledTree.step
  simp [hf, hep, hmix, alookup, leU64_ne_mix e]

theorem alookup_append {α : Type} (l1 l2 : List (Nat × α)) (k : Nat) :
    alookup (l1 ++ l2) k =
      if (alookup l1 k).isSome then alookup l1 k else alookup l2 k := by
  induction l1 with
  | nil => simp [alookup]
  | cons p r ih =>
    by_cases hk : p.1 = k
    · simp [alookup, hk]
    · simp [alookup, hk, ih]

theorem alookup_filter_key {α : Type} (f : Nat → Bool) (l : List (Nat × α)) (k : Nat) :
    alookup (l.filter (fun p => f p.1)) k = if f k then alookup l k else none := by
  induction l with
  | nil => simp [alookup]
  | cons p r ih =>
    by_cases hf : f p.1
    · by_cases hk : p.1 = k
      · subst hk; simp [List.filter_cons, hf, alookup]
      · simp [List.filter_cons, hf, alookup, hk, ih]
    · by_cases hk : p.1 = k
      · subst hk; simp [List.filter_cons, hf, alookup, ih]
      · simp [List.filter_cons, hf, alookup, hk, ih]

theorem alookup_isSome_of_mem {α : Type} {l : List (Nat × α)} {p : Nat × α}
    (hp : p ∈ l) : (alookup l p.1).isSome = true := by
  induction l with
  | nil => cases hp
  | cons q r ih =>
    by_cases hk : q.1 = p.1
    · simp [alookup, hk]
    · rcases List.mem_cons.mp hp with h | h
      · rw [h] at hk; exact absurd rfl hk
      · simp [alookup, hk, ih h]

/-- Claim C1 (code_bug evidence).  At the failing input mC1, t0: the
filter reports t0 (bloom false positive) and the store does not hold t0,
yet is_replay returns Ok(true) and still does not write t0 — the
source's `if let Ok(_)` matches `Ok(None)`.  The claim says such a call
inserts t0, writes it, and returns false, and that true is returned only
for a tag actually present in the store. -/
theorem c1_bloom_false_positive_misclassified :
    BloomFilter.contains mC1.filter t0 = true ∧
    alookup mC1.cache.map t0 = none ∧
    (MixKey.is_replay mC1 t0).1 = Except.ok true ∧
    alookup ((MixKey.is_replay mC1 t0).2).cache.map t0 = none := by decide

/-- Claim C2 (code_bug evidence).  With clock epoch 2 (threshold 1) the
source's retain closure keeps exactly the stale entries: from ring
{0, 5} it keeps 0 (which is < 1) and drops 5, returning true; and from
ring {5} it drops the live entry 5 yet returns false.  The claim says
entries below e − 1 are dropped and true is returned exactly when
something was dropped. -/
theorem c2_prune_inverted :
    MixKeys.prune [((0 : Nat), Unit.unit), (5, Unit.unit)] 2 = ([(0, Unit.unit)], true) ∧
    MixKeys.prune [((5 : Nat), Unit.unit)] 2 = ([], false) := by decide

/-- Claim C3 (code_bug evidence).  After constructing at (base_dir, 1)
(store c3m1.cache), constructing at the same directory with epoch 2
succeeds — with epoch field 2 and epoch 1's stored private key [7] —
instead of failing LoadCacheFailed: the source wrote the little-endian
epoch bytes as a key with empty value, so the read of EPOCH_KEY finds
nothing and the mismatch check never runs. -/
theorem c3_epoch_mismatch_not_detected :
    MixKey.new 1 emptySledTree [7] exF = Except.ok c3m1 ∧
    (MixKey.new 2 c3m1.cache [8] exF).toOption.map (fun m => (m.epoch, m.private_key)) =
      some (2, [7]) := ⟨rfl, by decide⟩

/-- Claim C4 (code_bug evidence).  At mC4, t0 the filter reports a hit
and the slow-path store read fails, yet is_replay returns Ok(false)
(the read error falls into the source's not-present branch and the
recovery write succeeds) instead of surfacing a store error. -/
theorem c4_read_error_treated_absent :
    BloomFilter.contains mC4.filter t0 = true ∧
    (MixKey.is_replay mC4 t0).1 = Except.ok false := by decide

/-- Claim C5 (code_bug evidence).  On mC5 the first is_replay(t0)
returns Ok(false); the very next is_replay(t0) hits the filter, its
store read fails, and the call again returns Ok(false) — a boolean
fresh verdict, not a surfaced error — because the read error is treated
as absence. -/
theorem c5_fresh_verdict_after_fresh_verdict :
    (MixKey.is_replay mC5 t0).1 = Except.ok false ∧
    (MixKey.is_replay ((MixKey.is_replay mC5 t0).2) t0).1 = Except.ok false := by decide

/-- Claim C6 (counterexample).  Concrete restart round trip at
(base_dir, epoch 1): the first instance c6m1 reports t0 fresh, is
flushed, dropped, and reconstructed as c6m2 from the same directory;
the private key round-trips byte for byte, but c6m2.is_replay(t0) does
not return true — the reconstructed bloom filter is empty and the fast
path skips the durable store — refuting the claim's assertion that the
reconstruction reports true for every tag the prior instance saw
return false. -/
theorem c6_restart_counterexample :
    (MixKey.is_replay c6m1 t0).1 = Except.ok false ∧
    MixKey.new 1 (MixKey.flush (replayAll c6m1 [t0])).cache [2] exF = Except.ok c6m2 ∧
    c6m2.private_key = c6m1.private_key ∧
    (MixKey.is_replay c6m2 t0).1 ≠ Except.ok true :=
  ⟨by decide, rfl, by decide, by decide⟩

/-- Claim C8 (counterexample).  Ring {0 ↦ handle 1}, destination
{0 ↦ handle 2}: shadow keeps the destination's pre-existing handle 2,
so after the call dst does not map epoch 0 to the ring's handle,
refuting the claim's assertion that after either call dst holds exactly
the ring's epochs mapped to shared handles of the ring's entries. -/
theorem c8_shadow_counterexample :
    MixKeys.shadow [((0 : Nat), (1 : Nat))] [(0, 2)] = [(0, 2)] ∧
    alookup (MixKeys.shadow [((0 : Nat), (1 : Nat))] [(0, 2)]) 0 ≠
      alookup [((0 : Nat), (1 : Nat))] 0 := by decide

/-- Claim C10.  During construction, store-read errors on both reserved
entries are handled like absence: with a schedule failing both reads
(and mismatching bytes stored under EPOCH_KEY and an old key under
MIX_CACHE_KEY), construction still succeeds, skips the epoch-mismatch
check, writes a fresh epoch record, and generates and writes a
brand-new private key over the stored one. -/
theorem c10_construction_read_errors :
    (MixKey.new 3 { map := [(EPOCH_KEY, leU64 4), (MIX_CACHE_KEY, [9])],
                    faults := [true, false, true, false] } [4] exF).toOption.map
      (fun m => (m.private_key, alookup m.cache.map MIX_CACHE_KEY,
                 alookup m.cache.map (leU64 3))) =
      some ([4], some [4], some []) := by decide

/-- Claim C6 (amended).  Constructing at (base_dir, e) over a fresh
directory, running any fault-free sequence of is_replay calls on
proper-length tags, flushing, dropping, and reconstructing at the same
(base_dir, e) yields a MixKey whose private key is byte-for-byte the
original; but the reconstructed instance's bloom filter starts empty,
so its first is_replay on any tag it does not (yet) report — in
particular every previously observed tag — takes the fast path, skips
the durable store, and returns Ok(false). -/
theorem c6_restart_amended (e : Nat) (rng1 rng2 : Bytes)
    (ex1 ex2 : List Tag → Tag → Bool) (tags : List Tag) (t : Tag)
    (m1 m2 : MixKey)
    (htags : ∀ u ∈ tags, u.length = SPHINX_REPLAY_TAG_SIZE)
    (hfp : ex2 [] t = false)
    (h1 : MixKey.new e emptySledTree rng1 ex1 = Except.ok m1)
    (h2 : MixKey.new e (MixKey.flush (replayAll m1 tags)).cache rng2 ex2 = Except.ok m2) :
    m2.private_key = m1.private_key ∧ (MixKey.is_replay m2 t).1 = Except.ok false := by
  rw [new_empty] at h1
  injection h1 with h1e
  subst h1e
  have hne : MIX_CACHE_KEY ≠ EPOCH_KEY := by decide
  have hmix : alookup (mkFresh e rng1 ex1).cache.map MIX_CACHE_KEY = some rng1 := by
    simp [mkFresh, alookup]
  have hep : alookup (mkFresh e rng1 ex1).cache.map EPOCH_KEY = none := by
    simp [mkFresh, alookup, hne, leU64_ne_epoch e]
  have hinv := replayAll_inv rng1 tags (mkFresh e rng1 ex1) htags rfl hmix hep
  simp only [MixKey.flush] at h2
  rw [new_on_store e _ rng2 rng1 ex2 hinv.1 hinv.2.2 hinv.2.1] at h2
  injection h2 with h2e
  subst h2e
  constructor
  · rfl
  · simp [MixKey.is_replay, BloomFilter.contains, BloomFilter.insert,
          SledTree.set, SledTree.step, hfp]

/-- Witness for C6 (amended) at the concrete restart scenario of the
counterexample: epoch 1, generated keys [1] then [2], one observed
tag t0. -/
theorem c6_restart_witness :
    c6m2.private_key = c6m1.private_key ∧
    (MixKey.is_replay c6m2 t0).1 = Except.ok false :=
  c6_restart_amended 1 [1] [2] exF exF [t0] t0 c6m1 c6m2 (by decide) rfl rfl rfl

/-- Claim C9.  MixKeys::prune computes `time.epoch - 1` in u64
arithmetic; at clock epoch 0 the subtraction wraps to u64::MAX (release
semantics; debug builds panic), so every entry whose epoch lies below
u64::MAX satisfies the staleness comparison: the (inverted) retain
keeps the whole ring and the call reports pruning exactly when the ring
is nonempty. -/
theorem c9_prune_underflow {α : Type} (ks : List (Nat × α))
    (h : ∀ p ∈ ks, p.1 < U64_LIMIT - 1) :
    pruneThreshold 0 = U64_LIMIT - 1 ∧
    (MixKeys.prune ks 0).1 = ks ∧ (MixKeys.prune ks 0).2 = !ks.isEmpty := by
  have hthr : pruneThreshold 0 = U64_LIMIT - 1 := by decide
  refine ⟨hthr, ?_, ?_⟩
  · simp only [MixKeys.prune]
    apply List.filter_eq_self.mpr
    intro a ha
    rw [hthr]
    exact decide_eq_true (h a ha)
  · simp only [MixKeys.prune]
    cases ks with
    | nil => rfl
    | cons p r =>
      have hp : p.1 < pruneThreshold 0 := by
        rw [hthr]; exact h p (List.mem_cons_self p r)
      simp [hp]

/-- Witness for C9 at the two-entry ring {3, 7} and clock epoch 0. -/
theorem c9_prune_underflow_witness :
    pruneThreshold 0 = U64_LIMIT - 1 ∧
    (MixKeys.prune [((3 : Nat), Unit.unit), (7, Unit.unit)] 0).1 =
      [(3, Unit.unit), (7, Unit.unit)] ∧
    (MixKeys.prune [((3 : Nat), Unit.unit), (7, Unit.unit)] 0).2 =
      !([((3 : Nat), Unit.unit), (7, Unit.unit)].isEmpty) :=
  c9_prune_underflow _ (by decide)

/-- Pointwise description of shadow: keys absent from the ring are
dropped, keys the destination already holds keep the destination's
handle, and ring keys the destination lacks get the ring's handle. -/
theorem alookup_shadow {α : Type} (keys dst : List (Nat × α)) (x : Nat) :
    alookup (MixKeys.shadow keys dst) x =
      if (alookup keys x).isSome then
        (if (alookup dst x).isSome then alookup dst x else alookup keys x)
      else none := by
  simp only [MixKeys.shadow]
  rw [alookup_append]
  have h2 : alookup (keys.filter (fun p =>
      (alookup (dst.filter (fun q => (alookup keys q.1).isSome)) p.1).isNone)) x =
      if (alookup (dst.filter (fun q => (alookup keys q.1).isSome)) x).isNone
      then alookup keys x else none := by
    simpa using alookup_filter_key
      (fun j => (alookup (dst.filter (fun q => (alookup keys q.1).isSome)) j).isNone) keys x
  have h1 : alookup (dst.filter (fun q => (alookup keys q.1).isSome)) x =
      if (alookup keys x).isSome then alookup dst x else none := by
    simpa using alookup_filter_key (fun j => (alookup keys j).isSome) dst x
  rw [h2, h1]
  rcases hkx : alookup keys x with _ | v <;> rcases hdx : alookup dst x with _ | w <;>
    simp [hkx, hdx]

/-- Claim C8 (amended).  shadow is idempotent — with no intervening ring
mutation the second call leaves the destination unchanged — and after a
call the destination holds exactly the ring's epochs, where an epoch
the destination lacked is mapped to the ring's shared handle while an
epoch it already held keeps the destination's pre-existing handle. -/
theorem c8_shadow_amended {α : Type} (keys dst : List (Nat × α)) :
    MixKeys.shadow keys (MixKeys.shadow keys dst) = MixKeys.shadow keys dst ∧
    (∀ x, (alookup (MixKeys.shadow keys dst) x).isSome = (alookup keys x).isSome) ∧
    (∀ x, alookup dst x = none →
      alookup (MixKeys.shadow keys dst) x = alookup keys x) := by
  refine ⟨?_, ?_, ?_⟩
  · have hself : (MixKeys.shadow keys dst).filter (fun p => (alookup keys p.1).isSome) =
        MixKeys.shadow keys dst := by
      apply List.filter_eq_self.mpr
      intro a ha
      simp only [MixKeys.shadow] at ha
      rcases List.mem_append.mp ha with h | h
      · simpa using List.of_mem_filter h
      · exact alookup_isSome_of_mem (List.mem_of_mem_filter h)
    have hnil : keys.filter (fun p =>
        (alookup ((MixKeys.shadow keys dst).filter
          (fun q => (alookup keys q.1).isSome)) p.1).isNone) = [] := by
      rw [hself]
      apply List.filter_eq_nil_iff.mpr
      intro p hp
      have hks := alookup_isSome_of_mem hp
      rw [alookup_shadow]
      rcases hkx : alookup keys p.1 with _ | v
      · rw [hkx] at hks; simp at hks
      · rcases hdx : alookup dst p.1 with _ | w <;> simp [hkx, hdx]
    show (MixKeys.shadow keys dst).filter (fun p => (alookup keys p.1).isSome) ++
        keys.filter (fun p =>
          (alookup ((MixKeys.shadow keys dst).filter
            (fun q => (alookup keys q.1).isSome)) p.1).isNone) =
        MixKeys.shadow keys dst
    rw [hnil, hself, List.append_nil]
  · intro x
    rw [alookup_shadow]
    rcases hkx : alookup keys x with _ | v <;> rcases hdx : alookup dst x with _ | w <;>
      simp [hkx, hdx]
  · intro x hx
    rw [alookup_shadow, hx]
    rcases hkx : alookup keys x with _ | v <;> simp [hkx]

/-- Witness for C8 (amended): ring {0 ↦ 1}, destination {9 ↦ 2} (epoch 9
left the ring, epoch 0 is new to the destination). -/
theorem c8_shadow_witness :
    MixKeys.shadow [((0 : Nat), (1 : Nat))]
        (MixKeys.shadow [((0 : Nat), (1 : Nat))] [(9, 2)]) =
      MixKeys.shadow [((0 : Nat), (1 : Nat))] [(9, 2)] ∧
    (alookup (MixKeys.shadow [((0 : Nat), (1 : Nat))] [(9, 2)]) 0).isSome =
      (alookup [((0 : Nat), (1 : Nat))] 0).isSome ∧
    alookup (MixKeys.shadow [((0 : Nat), (1 : Nat))] [(9, 2)]) 0 =
      alookup [((0 : Nat), (1 : Nat))] 0 :=
  ⟨(c8_shadow_amended [((0 : Nat), (1 : Nat))] [(9, 2)]).1,
   (c8_shadow_amended [((0 : Nat), (1 : Nat))] [(9, 2)]).2.1 0,
   (c8_shadow_amended [((0 : Nat), (1 : Nat))] [(9, 2)]).2.2 0 rfl⟩

/-- Over fresh per-epoch directories every construction in the generate
loop succeeds, and afterwards an epoch is present in the ring iff it
was visited by the loop or already present. -/
theorem genGo_emptyEnv (rng : Nat → Bytes) (ex : Nat → List Tag → Tag → Bool)
    (epochs : List Nat) (ks : List (Nat × MixKey)) (dg : Bool) :
    ∃ r, genGo envEmpty rng ex epochs ks dg = Except.ok r ∧
      ∀ x, (alookup r.1 x).isSome = (decide (x ∈ epochs) || (alookup ks x).isSome) := by
  induction epochs generalizing ks dg with
  | nil => exact ⟨(ks, dg), rfl, fun x => by simp⟩
  | cons e rest ih =>
    by_cases hmem : (alookup ks e).isSome = true
    · obtain ⟨r, hr, hl⟩ := ih ks dg
      refine ⟨r, ?_, ?_⟩
      · simpa [genGo, hmem] using hr
      · intro x
        rw [hl x]
        by_cases hx : x = e
        · subst hx; simp [List.mem_cons, hmem]
        · simp [List.mem_cons, hx]
    · obtain ⟨r, hr, hl⟩ := ih ((e, mkFresh e (rng e) (ex e)) :: ks) true
      refine ⟨r, ?_, ?_⟩
      · have hne := new_empty e (rng e) (ex e)
        simpa [genGo, hmem, envEmpty, hne] using hr
      · intro x
        rw [hl x]
        by_cases hx : x = e
        · subst hx
          have hx1 : (alookup ((x, mkFresh x (rng x) (ex x)) :: ks) x).isSome = true := by
            simp [alookup]
          simp [List.mem_cons, hx1]
        · have hx' : ¬ e = x := fun hh => hx hh.symm
          simp [List.mem_cons, hx, alookup, hx']

/-- The epochs visited by the generate loop are exactly the interval
[base, base + num) whenever the end of the range does not wrap. -/
theorem mem_epochRange {base num x : Nat} (h : base + num < U64_LIMIT) :
    x ∈ epochRange base num ↔ (base ≤ x ∧ x < base + num) := by
  unfold epochRange
  rw [Nat.mod_eq_of_lt h, Nat.add_sub_cancel_left]
  simp only [List.mem_map, List.mem_range]
  constructor
  · rintro ⟨i, hi, rfl⟩
    exact ⟨Nat.le_add_right base i, Nat.add_lt_add_left hi base⟩
  · rintro ⟨h1, h2⟩
    exact ⟨x - base, by omega, by omega⟩

/-- Claim C7.  MixKeys::new over fresh directories with clock epoch e
and num_mix_keys num succeeds, and the resulting ring holds an entry —
and public_key returns Some — exactly for the epochs in
[e, e + num). -/
theorem c7_ring_population (e num x : Nat) (h : e + num < U64_LIMIT) :
    (MixKeys.new e num envEmpty rng0 ex0).toOption.map
      (fun ring => ((alookup ring x).isSome, (MixKeys.public_key ring x).isSome)) =
      some (decide (e ≤ x ∧ x < e + num), decide (e ≤ x ∧ x < e + num)) := by
  obtain ⟨r, hr, hl⟩ := genGo_emptyEnv rng0 ex0 (epochRange e num) [] false
  have hnew : MixKeys.new e num envEmpty rng0 ex0 = Except.ok r.1 := by
    unfold MixKeys.new MixKeys.generate
    rw [hr]
  rw [hnew]
  have hps : (MixKeys.public_key r.1 x).isSome = (alookup r.1 x).isSome := by
    unfold MixKeys.public_key
    cases alookup r.1 x <;> simp
  have hmem : (x ∈ epochRange e num) ↔ (e ≤ x ∧ x < e + num) := mem_epochRange h
  simp [Except.toOption, hps, hl x, alookup, hmem]

/-- Witness for C7 with clock epoch 5 and three keys: epoch 6 is in the
ring with a public key, epoch 10 is absent. -/
theorem c7_ring_population_witness :
    (MixKeys.new 5 3 envEmpty rng0 ex0).toOption.map
      (fun ring => ((alookup ring 6).isSome, (MixKeys.public_key ring 6).isSome)) =
        some (true, true) ∧
    (MixKeys.new 5 3 envEmpty rng0 ex0).toOption.map
      (fun ring => ((alookup ring 10).isSome, (MixKeys.public_key ring 10).isSome)) =
        some (false, false) := by
  constructor
  · rw [c7_ring_population 5 3 6 (by decide)]; decide
  · rw [c7_ring_population 5 3 10 (by decide)]; decide

end Sphinx
